import Mathlib

/-!
Verification of the audio chunk planner and transcription orchestration of the
transcribe-summarize repository, shallowly embedded in Lean 4.

Durations and offsets are modelled as exact rationals (the Python source works
with floats but all claim-relevant arithmetic is on decimal constants, where
rational arithmetic agrees).  The `while` loop of the planner is modelled with
explicit fuel: `none` means the fuel ran out (the loop would still be running),
`some cs` means the loop exited with chunk list `cs`.
-/

namespace ChunkedAudio

/-- The chunking loop body of `get_audio_chunks` in
`transcribe_summarize/chunked_audio.py` (lines 58-77), fuel-indexed.
Arguments: fuel, `max_duration`, `overlap`, probed `duration`, loop variable
`start`.  Mirrors the source: `chunk_duration = min(max_duration, remaining)`,
overridden to `remaining + 0.5` when `remaining <= max_duration + overlap`;
the chunk is appended and the loop breaks when
`start + chunk_duration >= duration`, otherwise `start += max_duration - overlap`. -/
def chunkLoop : Nat → ℚ → ℚ → ℚ → ℚ → Option (List (ℚ × ℚ))
  | 0, _, _, _, _ => none
  | fuel+1, maxd, ov, duration, start =>
    if start < duration then
      let remaining := duration - start
      let cd : ℚ := if remaining ≤ maxd + ov then remaining + 1/2 else min maxd remaining
      if duration ≤ start + cd then
        some [(start, cd)]
      else
        Option.map (fun rest => (start, cd) :: rest)
          (chunkLoop fuel maxd ov duration (start + (maxd - ov)))
    else
      some []

/-- Model of `get_audio_chunks` in `transcribe_summarize/chunked_audio.py` (lines 49-77),
as a function of the probed duration (the Python function probes the file for
its duration; here the duration is the input).  Default parameters in the
source are `max_duration = 600`, `overlap = 10`.  Note the `duration <= 600`
single-chunk shortcut is hard-coded to 600 in the source, independent of
`max_duration`. -/
def get_audio_chunks (fuel : Nat) (maxd ov duration : ℚ) : Option (List (ℚ × ℚ)) :=
  if duration ≤ 600 then some [(0, duration + 1/2)]
  else chunkLoop fuel maxd ov duration 0

end ChunkedAudio

/-- The list of the `k` full-size chunks produced before the final chunk when
running the default-parameter loop from offset `start`: starts advance by
`590 = max_duration - overlap` and every full chunk has length 600. -/
def fullChunks (start : ℚ) : Nat → List (ℚ × ℚ)
  | 0 => []
  | k+1 => (start, 600) :: fullChunks (start + 590) k

theorem fullChunks_length (start : ℚ) (k : Nat) : (fullChunks start k).length = k := by
  induction k generalizing start with
  | zero => rfl
  | succ n ih => simp [fullChunks, ih]

theorem fullChunks_get (k : Nat) :
    ∀ (start : ℚ) (i : Nat) (h : i < (fullChunks start k).length),
      (fullChunks start k).get ⟨i, h⟩ = (start + 590 * (i : ℚ), 600) := by
  induction k with
  | zero => intro start i h; simp [fullChunks] at h
  | succ n ih =>
    intro start i h
    cases i with
    | zero => simp [fullChunks]
    | succ j =>
      have hj : j < (fullChunks (start + 590) n).length := by
        simp only [fullChunks, List.length_cons] at h
        omega
      have := ih (start + 590) j hj
      simp only [fullChunks, List.get_cons_succ, this]
      push_cast
      ring_nf

/-- Closed form of the default-parameter chunk loop: when the loop starting at
`start < D` terminates with list `cs`, there is a number `k` of full-size
chunks such that `cs` consists of `k` chunks `(start + 590*i, 600)` followed by
one final chunk starting at `start + 590*k` and ending at `D + 1/2`. -/
theorem chunkLoop_closedForm :
    ∀ (fuel : Nat) (D start : ℚ) (cs : List (ℚ × ℚ)),
      ChunkedAudio.chunkLoop fuel 600 10 D start = some cs → start < D →
      ∃ k : Nat, (∀ i : Nat, i < k → 610 < D - (start + 590 * (i : ℚ))) ∧
        D - (start + 590 * (k : ℚ)) ≤ 610 ∧
        cs = fullChunks start k ++
          [(start + 590 * (k : ℚ), (D - (start + 590 * (k : ℚ))) + 1/2)] := by
  intro fuel
  induction fuel with
  | zero => intro D start cs h; simp [ChunkedAudio.chunkLoop] at h
  | succ n ih =>
    intro D start cs h hlt
    simp only [ChunkedAudio.chunkLoop] at h
    rw [if_pos hlt] at h
    by_cases hrem : D - start ≤ 600 + 10
    · rw [if_pos hrem, if_pos (by linarith)] at h
      injection h with h
      refine ⟨0, by intro i hi; exact absurd hi (Nat.not_lt_zero i),
        by push_cast; linarith, ?_⟩
      rw [← h]
      simp [fullChunks]
    · rw [if_neg hrem] at h
      have hmin : min (600 : ℚ) (D - start) = 600 := min_eq_left (by linarith)
      rw [hmin, if_neg (by linarith : ¬ D ≤ start + 600)] at h
      cases hr : ChunkedAudio.chunkLoop n 600 10 D (start + (600 - 10)) with
      | none => rw [hr] at h; simp at h
      | some rest =>
        rw [hr] at h
        simp only [Option.map_some'] at h
        injection h with h
        have h590 : start + ((600 : ℚ) - 10) = start + 590 := by norm_num
        rw [h590] at hr
        obtain ⟨k, hcond, hlast, hrest⟩ := ih D (start + 590) rest hr (by linarith)
        refine ⟨k + 1, ?_, ?_, ?_⟩
        · intro i hi
          match i with
          | 0 => push_cast; linarith
          | j+1 =>
            have hc := hcond j (by omega)
            push_cast at hc ⊢
            linarith
        · push_cast at hlast ⊢
          linarith
        · rw [← h, hrest]
          have harith : start + 590 * ((k : ℚ) + 1) = (start + 590) + 590 * (k : ℚ) := by
            ring
          push_cast
          rw [harith]
          simp [fullChunks, List.cons_append]

/-- Coverage of the default-parameter loop: every instant between the loop's
entry offset and the probed duration lies inside one of the produced chunks. -/
theorem chunkLoop_covers :
    ∀ (fuel : Nat) (D start : ℚ) (cs : List (ℚ × ℚ)),
      ChunkedAudio.chunkLoop fuel 600 10 D start = some cs → start < D →
      ∀ t : ℚ, start ≤ t → t ≤ D → ∃ c ∈ cs, c.1 ≤ t ∧ t ≤ c.1 + c.2 := by
  intro fuel
  induction fuel with
  | zero => intro D start cs h; simp [ChunkedAudio.chunkLoop] at h
  | succ n ih =>
    intro D start cs h hlt t ht1 ht2
    simp only [ChunkedAudio.chunkLoop] at h
    rw [if_pos hlt] at h
    by_cases hrem : D - start ≤ 600 + 10
    · rw [if_pos hrem, if_pos (by linarith)] at h
      injection h with h
      subst h
      refine ⟨(start, D - start + 1/2), List.mem_singleton.mpr rfl, ht1, ?_⟩
      show t ≤ start + (D - start + 1/2)
      linarith
    · rw [if_neg hrem] at h
      have hmin : min (600 : ℚ) (D - start) = 600 := min_eq_left (by linarith)
      rw [hmin, if_neg (by linarith : ¬ D ≤ start + 600)] at h
      cases hr : ChunkedAudio.chunkLoop n 600 10 D (start + (600 - 10)) with
      | none => rw [hr] at h; simp at h
      | some rest =>
        rw [hr] at h
        simp only [Option.map_some'] at h
        injection h with h
        subst h
        by_cases hcase : t ≤ start + 600
        · exact ⟨(start, 600), List.mem_cons_self _ _, ht1, hcase⟩
        · have h590 : start + ((600 : ℚ) - 10) = start + 590 := by norm_num
          rw [h590] at hr
          obtain ⟨c, hc, hc1, hc2⟩ :=
            ih D (start + 590) rest hr (by linarith) t (by linarith) ht2
          exact ⟨c, List.mem_cons_of_mem _ hc, hc1, hc2⟩

/-- The relation asserted of each consecutive pair of planned chunks: starts
strictly increase, the earlier chunk's end exceeds the later chunk's start by
exactly the 10-second overlap, and ends strictly increase (so the two intervals
intersect in a segment of length exactly 10). -/
def consecOverlap (c d : ℚ × ℚ) : Prop :=
  c.1 < d.1 ∧ (c.1 + c.2) - d.1 = 10 ∧ c.1 + c.2 < d.1 + d.2

theorem chain_closedForm (D : ℚ) :
    ∀ (k : Nat) (start : ℚ),
      (∀ i : Nat, i < k → 610 < D - (start + 590 * (i : ℚ))) →
      List.Chain' consecOverlap
        (fullChunks start k ++
          [(start + 590 * (k : ℚ), (D - (start + 590 * (k : ℚ))) + 1/2)]) := by
  intro k
  induction k with
  | zero => intro start _; simp [fullChunks]
  | succ n ih =>
    intro start hcond
    have hshift : start + 590 * (((n : ℚ)) + 1) = (start + 590) + 590 * (n : ℚ) := by
      ring
    have hlist :
        fullChunks start (n+1) ++
            [(start + 590 * ((n : ℚ) + 1), (D - (start + 590 * ((n : ℚ) + 1))) + 1/2)] =
          (start, 600) ::
            (fullChunks (start + 590) n ++
              [((start + 590) + 590 * (n : ℚ),
                (D - ((start + 590) + 590 * (n : ℚ))) + 1/2)]) := by
      rw [hshift]
      simp [fullChunks, List.cons_append]
    push_cast
    rw [hlist]
    refine List.chain'_cons'.mpr ⟨?_, ?_⟩
    · intro y hy
      have h0 : 610 < D - start := by
        have := hcond 0 (by omega)
        push_cast at this
        linarith
      cases n with
      | zero =>
        simp [fullChunks] at hy
        subst hy
        refine ⟨by norm_num, by norm_num, ?_⟩
        show start + 600 < (start + 590) + (D - (start + 590) + 2⁻¹)
        linarith
      | succ m =>
        simp [fullChunks] at hy
        subst hy
        exact ⟨by norm_num, by norm_num, by norm_num⟩
    · refine ih (start + 590) ?_
      intro i hi
      have := hcond (i + 1) (by omega)
      push_cast at this ⊢
      linarith

theorem closedForm_head (start y : ℚ) (k : Nat) :
    (fullChunks start k ++ [(start + 590 * (k : ℚ), y)]).head?.map Prod.fst =
      some start := by
  cases k with
  | zero => simp [fullChunks]
  | succ n => simp [fullChunks]

theorem fullChunks_mem (k : Nat) :
    ∀ (start : ℚ), ∀ c ∈ fullChunks start k, c.2 = 600 := by
  induction k with
  | zero => intro start c hc; simp [fullChunks] at hc
  | succ n ih =>
    intro start c hc
    simp only [fullChunks, List.mem_cons] at hc
    rcases hc with hc | hc
    · rw [hc]
    · exact ih (start + 590) c hc

/-- Claim C1: for a probed duration `D > 600` under the default parameters
`max_duration = 600`, `overlap = 10`, any terminating run of
`get_audio_chunks` returns an ordered chunk list whose first chunk starts at
0, whose intervals cover `[0, D]` with no gap, in which every consecutive
pair of chunks overlaps by exactly 10 seconds, and whose final chunk ends at
exactly `D + 0.5`. -/
theorem chunk_planner_long_duration (D : ℚ) (fuel : Nat) (cs : List (ℚ × ℚ))
    (hD : 600 < D)
    (h : ChunkedAudio.get_audio_chunks fuel 600 10 D = some cs) :
    cs.head?.map Prod.fst = some 0 ∧
    (∀ t : ℚ, 0 ≤ t → t ≤ D → ∃ c ∈ cs, c.1 ≤ t ∧ t ≤ c.1 + c.2) ∧
    List.Chain' consecOverlap cs ∧
    cs.getLast?.map (fun c => c.1 + c.2) = some (D + 1/2) := by
  have hloop : ChunkedAudio.chunkLoop fuel 600 10 D 0 = some cs := by
    rw [ChunkedAudio.get_audio_chunks, if_neg (by linarith)] at h
    exact h
  obtain ⟨k, hcond, hlastc, hcs⟩ := chunkLoop_closedForm fuel D 0 cs hloop (by linarith)
  refine ⟨?_, ?_, ?_, ?_⟩
  · rw [hcs]
    exact closedForm_head 0 _ k
  · exact chunkLoop_covers fuel D 0 cs hloop (by linarith)
  · rw [hcs]
    exact chain_closedForm D k 0 hcond
  · rw [hcs, List.getLast?_concat]
    simp only [Option.map_some']
    congr 1
    ring

/-- Witness for C1 at `D = 1250`: the planner returns
`[(0, 600), (590, 600), (1180, 70.5)]` and, e.g., the instant `t = 700` is
covered by one of the chunks. -/
theorem chunk_planner_long_duration_witness :
    ∃ c ∈ [((0 : ℚ), (600 : ℚ)), (590, 600), (1180, 141/2)],
      c.1 ≤ 700 ∧ (700 : ℚ) ≤ c.1 + c.2 :=
  (chunk_planner_long_duration 1250 5 [(0, 600), (590, 600), (1180, 141/2)]
    (by norm_num)
    (by norm_num [ChunkedAudio.get_audio_chunks, ChunkedAudio.chunkLoop])).2.1
    700 (by norm_num) (by norm_num)

/-- Claim C2: for a probed duration `0 ≤ D ≤ 600` and max chunk size 600,
`get_audio_chunks` returns exactly the one-element list `[(0, D + 0.5)]`. -/
theorem chunk_planner_short_duration (D : ℚ) (fuel : Nat)
    (_h0 : 0 ≤ D) (h : D ≤ 600) :
    ChunkedAudio.get_audio_chunks fuel 600 10 D = some [(0, D + 1/2)] := by
  rw [ChunkedAudio.get_audio_chunks, if_pos h]

/-- Witness for C2 at `D = 300`. -/
theorem chunk_planner_short_duration_witness :
    ChunkedAudio.get_audio_chunks 1 600 10 300 = some [(0, 601/2)] := by
  have h := chunk_planner_short_duration 300 1 (by norm_num) (by norm_num)
  norm_num at h
  exact h

/-- Counterexample to claim C5 as stated: at probed duration `D = 600` the
planner returns a single chunk of length `600.5 > 600` (and at `D = 1200` the
final chunk has length `610.5`), so not every chunk length is at most 600. -/
theorem chunk_length_counterexample :
    ChunkedAudio.get_audio_chunks 1 600 10 600 = some [(0, 1201/2)] ∧
    ChunkedAudio.get_audio_chunks 5 600 10 1200 = some [(0, 600), (590, 1221/2)] ∧
    ¬ ((1201 : ℚ)/2 ≤ 600) ∧ ¬ ((1221 : ℚ)/2 ≤ 600) := by
  refine ⟨?_, ?_, by norm_num, by norm_num⟩
  · norm_num [ChunkedAudio.get_audio_chunks]
  · norm_num [ChunkedAudio.get_audio_chunks, ChunkedAudio.chunkLoop]

/-- Claim C5 (amended): under the default parameters every chunk produced by
`get_audio_chunks` has length at most `610.5` seconds (non-final chunks are
exactly 600 seconds; the final chunk carries up to 610 seconds of remainder
plus the 0.5-second buffer). -/
theorem chunk_length_bound (D : ℚ) (fuel : Nat) (cs : List (ℚ × ℚ))
    (h : ChunkedAudio.get_audio_chunks fuel 600 10 D = some cs) :
    ∀ c ∈ cs, c.2 ≤ 1221/2 := by
  intro c hc
  rw [ChunkedAudio.get_audio_chunks] at h
  by_cases hD : D ≤ 600
  · rw [if_pos hD] at h
    injection h with h
    subst h
    simp only [List.mem_singleton] at hc
    subst hc
    show D + 1/2 ≤ 1221/2
    linarith
  · rw [if_neg hD] at h
    obtain ⟨k, hcond, hlastc, hcs⟩ :=
      chunkLoop_closedForm fuel D 0 cs h (by linarith)
    subst hcs
    rcases List.mem_append.mp hc with hmem | hmem
    · rw [fullChunks_mem k 0 c hmem]
      norm_num
    · simp only [List.mem_singleton] at hmem
      subst hmem
      show (D - (0 + 590 * (k : ℚ))) + 1/2 ≤ 1221/2
      linarith

/-- Witness for the amended C5 at `D = 1200`: the final chunk has length
`610.5 ≤ 610.5`. -/
theorem chunk_length_bound_witness :
    ChunkedAudio.get_audio_chunks 5 600 10 1200 = some [(0, 600), (590, 1221/2)] ∧
    (((590 : ℚ), (1221 : ℚ)/2)).2 ≤ 1221/2 := by
  have heq : ChunkedAudio.get_audio_chunks 5 600 10 1200 =
      some [(0, 600), (590, 1221/2)] := by
    norm_num [ChunkedAudio.get_audio_chunks, ChunkedAudio.chunkLoop]
  exact ⟨heq, chunk_length_bound 1200 5 [(0, 600), (590, 1221/2)] heq
    (590, 1221/2) (by simp)⟩

/-- Fuel sufficiency for the chunk loop: when the remaining span fits in `k`
steps of size `max_duration - overlap`, fuel `k + 1` is enough for the loop to
finish. -/
theorem chunkLoop_fuel (maxd ov : ℚ) :
    ∀ (k : Nat) (D start : ℚ), D - start ≤ (k : ℚ) * (maxd - ov) →
      (ChunkedAudio.chunkLoop (k + 1) maxd ov D start).isSome = true := by
  intro k
  induction k with
  | zero =>
    intro D start hk
    push_cast at hk
    have hnlt : ¬ start < D := by linarith
    simp [ChunkedAudio.chunkLoop, hnlt]
  | succ n ih =>
    intro D start hk
    by_cases hlt2 : start < D
    · simp only [ChunkedAudio.chunkLoop]
      rw [if_pos hlt2]
      by_cases hrem : D - start ≤ maxd + ov
      · rw [if_pos hrem, if_pos (by linarith)]
        simp
      · rw [if_neg hrem]
        have hrec := ih D (start + (maxd - ov)) (by push_cast at hk ⊢; linarith)
        by_cases hbreak : D ≤ start + min maxd (D - start)
        · rw [if_pos hbreak]
          simp
        · rw [if_neg hbreak]
          simp only [ChunkedAudio.chunkLoop] at hrec
          simpa using hrec
    · simp [ChunkedAudio.chunkLoop, hlt2]

/-- Claim C9: for every duration `D ≥ 0` and parameters
`max_duration > overlap ≥ 0`, the chunk-planning loop of `get_audio_chunks`
terminates — some finite fuel makes the fuel-indexed loop return a value —
in particular for the default parameters. -/
theorem chunk_planner_terminates (D maxd ov : ℚ)
    (_hD : 0 ≤ D) (_hov : 0 ≤ ov) (hlt : ov < maxd) :
    (∃ fuel : Nat, (ChunkedAudio.chunkLoop fuel maxd ov D 0).isSome = true) ∧
    (∃ fuel : Nat, (ChunkedAudio.get_audio_chunks fuel maxd ov D).isSome = true) := by
  have hpos : 0 < maxd - ov := by linarith
  obtain ⟨k, hk⟩ := exists_nat_ge (D / (maxd - ov))
  have hDk : D - 0 ≤ (k : ℚ) * (maxd - ov) := by
    rw [sub_zero]
    calc D = (D / (maxd - ov)) * (maxd - ov) := by field_simp
    _ ≤ (k : ℚ) * (maxd - ov) := mul_le_mul_of_nonneg_right hk (le_of_lt hpos)
  have h1 := chunkLoop_fuel maxd ov k D 0 hDk
  refine ⟨⟨k + 1, h1⟩, ⟨k + 1, ?_⟩⟩
  rw [ChunkedAudio.get_audio_chunks]
  by_cases hle : D ≤ 600
  · rw [if_pos hle]
    simp
  · rw [if_neg hle]
    exact h1

/-- Witness for C9 at the default parameters with `D = 1250`. -/
theorem chunk_planner_terminates_witness :
    ∃ fuel : Nat, (ChunkedAudio.get_audio_chunks fuel 600 10 1250).isSome = true :=
  (chunk_planner_terminates 1250 600 10 (by norm_num) (by norm_num) (by norm_num)).2

namespace TranscribeFinancial

/-- The chunking loop of `get_audio_chunks` in `transcribe_financial.py`
(lines 139-156), fuel-indexed.  Identical in structure to the
`chunked_audio.py` loop except that the overlap is the local constant 10
rather than a parameter.  Arguments: fuel, `max_duration`, probed `duration`,
loop variable `start`. -/
def chunkLoop : Nat → ℚ → ℚ → ℚ → Option (List (ℚ × ℚ))
  | 0, _, _, _ => none
  | fuel+1, maxd, duration, start =>
    if start < duration then
      let remaining := duration - start
      let cd : ℚ := if remaining ≤ maxd + 10 then remaining + 1/2 else min maxd remaining
      if duration ≤ start + cd then
        some [(start, cd)]
      else
        Option.map (fun rest => (start, cd) :: rest)
          (chunkLoop fuel maxd duration (start + (maxd - 10)))
    else
      some []

/-- Model of `get_audio_chunks` in `transcribe_financial.py` (lines 133-158), with
default `max_duration = 600`, as a function of the probed duration. -/
def get_audio_chunks (fuel : Nat) (maxd duration : ℚ) : Option (List (ℚ × ℚ)) :=
  if duration ≤ 600 then some [(0, duration + 1/2)]
  else chunkLoop fuel maxd duration 0

end TranscribeFinancial

namespace WebService

/-- The chunking loop of `TranscriptionService.get_audio_chunks` in
`web/transcription_service.py` (lines 140-157), fuel-indexed; the overlap is
the local constant 10.  Arguments: fuel, `max_duration`, probed `duration`,
loop variable `start`. -/
def chunkLoop : Nat → ℚ → ℚ → ℚ → Option (List (ℚ × ℚ))
  | 0, _, _, _ => none
  | fuel+1, maxd, duration, start =>
    if start < duration then
      let remaining := duration - start
      let cd : ℚ := if remaining ≤ maxd + 10 then remaining + 1/2 else min maxd remaining
      if duration ≤ start + cd then
        some [(start, cd)]
      else
        Option.map (fun rest => (start, cd) :: rest)
          (chunkLoop fuel maxd duration (start + (maxd - 10)))
    else
      some []

/-- Model of `TranscriptionService.get_audio_chunks` in `web/transcription_service.py`
(lines 134-159), with default `max_duration = 600`, as a function of the
probed duration. -/
def get_audio_chunks (fuel : Nat) (maxd duration : ℚ) : Option (List (ℚ × ℚ)) :=
  if duration ≤ 600 then some [(0, duration + 1/2)]
  else chunkLoop fuel maxd duration 0

end WebService

/-- Claim C8: the three duplicated chunk planners — in
`transcribe_summarize/chunked_audio.py` (defaults `max_duration = 600`,
`overlap = 10`), in `transcribe_financial.py`, and in
`web/transcription_service.py` — are extensionally equal functions of the
probed duration under the default parameters (for every fuel). -/
theorem chunk_planners_agree (fuel : Nat) (D : ℚ) :
    ChunkedAudio.get_audio_chunks fuel 600 10 D =
      TranscribeFinancial.get_audio_chunks fuel 600 D ∧
    TranscribeFinancial.get_audio_chunks fuel 600 D =
      WebService.get_audio_chunks fuel 600 D := by
  have hloop : ∀ (f : Nat) (s : ℚ),
      ChunkedAudio.chunkLoop f 600 10 D s = TranscribeFinancial.chunkLoop f 600 D s ∧
      TranscribeFinancial.chunkLoop f 600 D s = WebService.chunkLoop f 600 D s := by
    intro f
    induction f with
    | zero => intro s; exact ⟨rfl, rfl⟩
    | succ n ih =>
      intro s
      constructor
      · simp only [ChunkedAudio.chunkLoop, TranscribeFinancial.chunkLoop]
        rw [(ih (s + (600 - 10))).1]
      · simp only [TranscribeFinancial.chunkLoop, WebService.chunkLoop]
        rw [(ih (s + (600 - 10))).2]
  constructor
  · rw [ChunkedAudio.get_audio_chunks, TranscribeFinancial.get_audio_chunks]
    by_cases hle : D ≤ 600
    · rw [if_pos hle, if_pos hle]
    · rw [if_neg hle, if_neg hle]
      exact (hloop fuel 0).1
  · rw [TranscribeFinancial.get_audio_chunks, WebService.get_audio_chunks]
    by_cases hle : D ≤ 600
    · rw [if_pos hle, if_pos hle]
    · rw [if_neg hle, if_neg hle]
      exact (hloop fuel 0).2

/-!
### Transcription orchestration of `transcribe_financial.py`

`transcribe_audio` (lines 350-453) performs external effects: URL download,
file-existence check, API-key lookup, API connection test, and per-chunk
audio extraction and transcription.  These outcomes are supplied as oracles
in an environment record, and the on-disk temp files are tracked explicitly
so that cleanup behaviour is provable.
-/

/-- Outcome of one `extract_audio_chunk` call (`transcribe_financial.py`
lines 96-131).  `ok p`: ffmpeg succeeded and the extracted temp file `p` was
returned.  `errClean e`: `subprocess.TimeoutExpired` or
`CalledProcessError` — those two handlers delete the mkstemp file before
re-raising `RuntimeError`, so no file survives.  `errLeak p e`: the
`"Audio extraction produced empty file"` check (lines 117-119) raised inside
the `try` — it is caught by neither handler, so the `RuntimeError`
propagates while the mkstemp file `p` is still on disk; `p` was never
returned, so the caller never records it in `temp_paths`. -/
inductive ExtractResult where
  | ok (path : String)
  | errClean (msg : String)
  | errLeak (path : String) (msg : String)

/-- Outcome of one `download_file` call (`transcribe_financial.py` lines
278-348).  `ok p`: file downloaded to temp path `p`.  `errClean e`: failure
before any temp file is created (bad URL, yt-dlp failure, `requests.get`
raising).  `errLeak p e`: `tempfile.mkstemp` created the temp file before
the write loop and the download then failed mid-write — the `except` block
(lines 346-348) re-raises without deleting, leaving the partial file `p` on
disk; `p` is never returned to `transcribe_audio`, so it is never recorded
in `temp_paths`. -/
inductive DownloadResult where
  | ok (path : String)
  | errClean (msg : String)
  | errLeak (path : String) (msg : String)

/-- Environment of one `transcribe_audio` run in `transcribe_financial.py`:
the outcomes of the external effects it performs.  `extract i` is the
outcome of `extract_audio_chunk` for chunk index `i`, `transcribeChunk i`
the outcome of the OpenAI transcription call for chunk `i`, and `chunks` the
chunk planner's output for the probed duration. -/
structure TAEnv where
  isUrl : Bool
  download : DownloadResult
  inputExists : Bool
  apiKey : Option String
  apiConnect : Except String Unit
  chunks : List (ℚ × ℚ)
  extract : Nat → ExtractResult
  transcribeChunk : Nat → Except String String

/-- Temp-file bookkeeping: `fsFiles` is the list of temp files currently
existing on disk, `tempPaths` the Python `temp_paths` list. -/
structure TAState where
  fsFiles : List String
  tempPaths : List String

/-- The error message raised when processing chunk `i` (0-based; the message
uses 1-based numbering) out of `n` fails:
`RuntimeError(f"Failed to process audio chunk {i+1}/{len(chunks)}: {e}")`. -/
def chunkErrMsg (i n : Nat) (e : String) : String :=
  "Failed to process audio chunk " ++ toString (i + 1) ++ "/" ++ toString n ++ ": " ++ e

/-- The chunk loop of `transcribe_audio` (`for i, (start, chunk_duration) in
enumerate(chunks)`): extract the slice to a temp file (recorded in
`temp_paths` only when extraction returns), transcribe it, delete the
chunk's temp file after a successful chunk, and re-raise any failure wrapped
in a message identifying the chunk; transcript parts are collected in chunk
order.  An `errLeak` extraction leaves its unrecorded mkstemp file on disk. -/
def runChunks (env : TAEnv) (n : Nat) :
    List Nat → TAState → List String → (Except String (List String)) × TAState
  | [], st, parts => (Except.ok parts, st)
  | i :: rest, st, parts =>
    match env.extract i with
    | ExtractResult.errClean e => (Except.error (chunkErrMsg i n e), st)
    | ExtractResult.errLeak p e =>
      (Except.error (chunkErrMsg i n e), ⟨p :: st.fsFiles, st.tempPaths⟩)
    | ExtractResult.ok p =>
      match env.transcribeChunk i with
      | Except.error e =>
        (Except.error (chunkErrMsg i n e), ⟨p :: st.fsFiles, p :: st.tempPaths⟩)
      | Except.ok t =>
        runChunks env n rest
          ⟨(p :: st.fsFiles).filter (fun f => f != p), p :: st.tempPaths⟩
          (parts ++ [t])

/-- The `finally` block of `transcribe_audio`: every recorded temp path that
still exists is removed; the files remaining on disk are those not recorded
in `temp_paths`. -/
def cleanupTempPaths (st : TAState) : List String :=
  st.fsFiles.filter (fun f => !(st.tempPaths.contains f))

/-- The `try`/`finally` section of `transcribe_audio` (lines 389-453): run the
chunk loop and join the parts with the blank-line separator; whether the loop
returns or raises, the `finally` block removes every recorded temp path. -/
def chunkPhase (env : TAEnv) (st0 : TAState) : Except String String × List String :=
  match runChunks env env.chunks.length (List.range env.chunks.length) st0 [] with
  | (Except.ok parts, st) =>
    (Except.ok (String.intercalate "\n\n" parts), cleanupTempPaths st)
  | (Except.error e, st) => (Except.error e, cleanupTempPaths st)

/-- Model of `transcribe_audio` in `transcribe_financial.py` (lines 350-453).  Returns
the transcript or the raised error, together with the temp files still on
disk when the call returns or the exception propagates.  Control flow mirrors
the source: optional URL download (failure wrapped in a message; a mid-write
download failure leaks the partial temp file, which is never recorded in
`temp_paths`), `os.path.exists` check, `load_api_key`, API connection test,
then the chunk phase — only exits from the `try` block inside the chunk
phase run the `finally` cleanup of `temp_paths`, and that cleanup removes
only recorded paths. -/
def transcribeAudioRun (env : TAEnv) : Except String String × List String :=
  match (if env.isUrl then
           match env.download with
           | DownloadResult.errClean e =>
             Except.error ("Failed to download file: " ++ e, ([] : List String))
           | DownloadResult.errLeak p e =>
             Except.error ("Failed to download file: " ++ e, [p])
           | DownloadResult.ok p => Except.ok (some p)
         else Except.ok none : Except (String × List String) (Option String)) with
  | Except.error pr => (Except.error pr.1, pr.2)
  | Except.ok dlp =>
    let st0 : TAState := match dlp with
      | some p => ⟨[p], [p]⟩
      | none => ⟨[], []⟩
    if env.inputExists then
      match env.apiKey with
      | none =>
        (Except.error "OpenAI API key not found. Please set OPENAI_API_KEY environment variable or create .env file",
          st0.fsFiles)
      | some _ =>
        match env.apiConnect with
        | Except.error e =>
          (Except.error ("Failed to connect to OpenAI API: " ++ e), st0.fsFiles)
        | Except.ok _ => chunkPhase env st0
    else
      (Except.error "Input file not found", st0.fsFiles)

/-- Environment of `main` in `transcribe_financial.py` (lines 845-939): the
transcription environment plus the outcomes of `create_financial_summary`
and `create_pdf_report`. -/
structure MainEnv where
  ta : TAEnv
  analyze : Except String String
  pdfResult : Option String

/-- Model of `main` in `transcribe_financial.py` modulo console output: transcribe,
analyze, write the combined text report to the output directory, optionally
write the PDF; any exception is caught by the outer handler which exits with
code 1 — in that case nothing has been written.  Returns the exit code and
the list of persisted output files. -/
def mainRun (env : MainEnv) (outputPath : String) : Nat × List String :=
  match (transcribeAudioRun env.ta).1 with
  | Except.error _ => (1, [])
  | Except.ok _ =>
    match env.analyze with
    | Except.error _ => (1, [])
    | Except.ok _ =>
      match env.pdfResult with
      | some p => (0, [outputPath, p])
      | none => (0, [outputPath])

theorem range_split (i m : Nat) :
    List.range (i + (1 + m)) = List.range i ++ i :: List.range' (i + 1) m := by
  rw [List.range_eq_range', List.range_eq_range']
  have hc : i + (1 + m) = (1 + m) + i := Nat.add_comm _ _
  rw [hc, ← List.range'_append_1 0 i (1 + m)]
  congr 1
  have h1 : 1 + m = m + 1 := Nat.add_comm 1 m
  rw [h1, List.range'_succ]
  simp

/-- If every chunk index in `js` extracts and transcribes successfully and
index `i` fails (in extraction — with or without a leaked file — or in
transcription), the loop run on `js ++ i :: ks` stops with the wrapped error
identifying chunk `i`. -/
theorem runChunks_error (env : TAEnv) (n i : Nat)
    (hfail : (∃ e, env.extract i = ExtractResult.errClean e) ∨
      (∃ p e, env.extract i = ExtractResult.errLeak p e) ∨
      ((∃ p, env.extract i = ExtractResult.ok p) ∧
        ∃ e, env.transcribeChunk i = Except.error e)) :
    ∀ (js : List Nat) (ks : List Nat) (st : TAState) (parts : List String),
      (∀ j ∈ js, (∃ p, env.extract j = ExtractResult.ok p) ∧
        (∃ t, env.transcribeChunk j = Except.ok t)) →
      ∃ e st2, runChunks env n (js ++ i :: ks) st parts =
        (Except.error (chunkErrMsg i n e), st2) := by
  intro js
  induction js with
  | nil =>
    intro ks st parts _
    rcases hfail with ⟨e, he⟩ | ⟨p, e, he⟩ | ⟨⟨p, hp⟩, ⟨e, he⟩⟩
    · exact ⟨e, st, by simp [runChunks, he]⟩
    · exact ⟨e, ⟨p :: st.fsFiles, st.tempPaths⟩, by simp [runChunks, he]⟩
    · exact ⟨e, ⟨p :: st.fsFiles, p :: st.tempPaths⟩, by simp [runChunks, hp, he]⟩
  | cons j js ih =>
    intro ks st parts hok
    obtain ⟨⟨p, hp⟩, ⟨t, ht⟩⟩ := hok j (List.mem_cons_self _ _)
    simp only [List.cons_append, runChunks, hp, ht]
    exact ih ks _ _ (fun a ha => hok a (List.mem_cons_of_mem _ ha))

/-- If every chunk index in `is` extracts successfully and transcribes to
`t i`, the loop returns the already-collected parts followed by the texts of
`is` in order. -/
theorem runChunks_ok (env : TAEnv) (n : Nat) (t : Nat → String) :
    ∀ (is : List Nat) (st : TAState) (parts : List String),
      (∀ i ∈ is, (∃ p, env.extract i = ExtractResult.ok p) ∧
        env.transcribeChunk i = Except.ok (t i)) →
      ∃ st2, runChunks env n is st parts = (Except.ok (parts ++ is.map t), st2) := by
  intro is
  induction is with
  | nil => intro st parts _; exact ⟨st, by simp [runChunks]⟩
  | cons i is ih =>
    intro st parts hok
    obtain ⟨⟨p, hp⟩, ht⟩ := hok i (List.mem_cons_self _ _)
    obtain ⟨st2, h2⟩ :=
      ih ⟨(p :: st.fsFiles).filter (fun f => f != p), p :: st.tempPaths⟩
        (parts ++ [t i]) (fun a ha => hok a (List.mem_cons_of_mem _ ha))
    refine ⟨st2, ?_⟩
    simp only [runChunks, hp, ht, h2, List.map_cons]
    rw [List.append_assoc]
    simp

/-- As long as no extraction fails through the unrecorded-file path
(`errLeak`), the loop preserves the invariant that every temp file on disk is
recorded in `temp_paths`. -/
theorem runChunks_subset (env : TAEnv) (n : Nat) :
    ∀ (is : List Nat) (st : TAState) (parts : List String),
      (∀ i ∈ is, ∀ p e, env.extract i ≠ ExtractResult.errLeak p e) →
      (∀ f ∈ st.fsFiles, f ∈ st.tempPaths) →
      ∀ f ∈ (runChunks env n is st parts).2.fsFiles,
        f ∈ (runChunks env n is st parts).2.tempPaths := by
  intro is
  induction is with
  | nil => intro st parts _ hsub; simpa [runChunks] using hsub
  | cons i is ih =>
    intro st parts hnl hsub
    cases hp : env.extract i with
    | errClean e => simpa [runChunks, hp] using hsub
    | errLeak p e => exact absurd hp (hnl i (List.mem_cons_self _ _) p e)
    | ok p =>
      cases ht : env.transcribeChunk i with
      | error e =>
        simp only [runChunks, hp, ht]
        intro f hf
        simp only [List.mem_cons] at hf ⊢
        rcases hf with rfl | hf
        · exact Or.inl rfl
        · exact Or.inr (hsub f hf)
      | ok t =>
        simp only [runChunks, hp, ht]
        apply ih _ _ (fun a ha => hnl a (List.mem_cons_of_mem _ ha))
        intro f hf
        simp only [List.mem_filter, List.mem_cons] at hf
        rcases hf with ⟨rfl | hf, _⟩
        · exact List.mem_cons_self _ _
        · exact List.mem_cons_of_mem _ (hsub f hf)

/-- When every file on disk is recorded in `temp_paths`, the `finally` block
deletes everything. -/
theorem cleanupTempPaths_empty (st : TAState)
    (hsub : ∀ f ∈ st.fsFiles, f ∈ st.tempPaths) :
    cleanupTempPaths st = [] := by
  rw [cleanupTempPaths, List.filter_eq_nil_iff]
  intro f hf
  simp [List.contains, hsub f hf]

/-- Any exit of the chunk phase — normal return or chunk failure — leaves no
temp file on disk, provided every file existing on entry was recorded in
`temp_paths` and no extraction fails through the unrecorded-file (`errLeak`)
path. -/
theorem chunkPhase_clean (env : TAEnv) (st0 : TAState)
    (hnl : ∀ i, ∀ p e, env.extract i ≠ ExtractResult.errLeak p e)
    (hsub : ∀ f ∈ st0.fsFiles, f ∈ st0.tempPaths) :
    (chunkPhase env st0).2 = [] := by
  have h := runChunks_subset env env.chunks.length
    (List.range env.chunks.length) st0 [] (fun a _ => hnl a) hsub
  rw [chunkPhase]
  cases hres : runChunks env env.chunks.length (List.range env.chunks.length) st0 [] with
  | mk res st =>
    rw [hres] at h
    cases res with
    | ok parts => exact cleanupTempPaths_empty st h
    | error e => exact cleanupTempPaths_empty st h

/-- Claim C3: if extraction or transcription of some chunk fails (earlier
chunks having succeeded), `transcribe_audio` raises an error identifying the
failed chunk and returns no transcript, and `main` catches the exception and
exits with code 1, persisting neither a transcript nor any analysis output
file. -/
theorem chunk_failure_aborts_job (env : TAEnv) (i : Nat)
    (hurl : env.isUrl = false)
    (hex : env.inputExists = true)
    (hkey : env.apiKey.isSome = true)
    (hconn : env.apiConnect = Except.ok ())
    (hi : i < env.chunks.length)
    (hprev : ∀ j, j < i → (∃ p, env.extract j = ExtractResult.ok p) ∧
      (∃ t, env.transcribeChunk j = Except.ok t))
    (hfail : (∃ e, env.extract i = ExtractResult.errClean e) ∨
      (∃ p e, env.extract i = ExtractResult.errLeak p e) ∨
      ((∃ p, env.extract i = ExtractResult.ok p) ∧
        ∃ e, env.transcribeChunk i = Except.error e)) :
    (∃ e, (transcribeAudioRun env).1 =
      Except.error (chunkErrMsg i env.chunks.length e)) ∧
    ∀ (analyze : Except String String) (pdfResult : Option String)
      (outputPath : String),
      mainRun ⟨env, analyze, pdfResult⟩ outputPath = (1, []) := by
  obtain ⟨key, hkk⟩ := Option.isSome_iff_exists.mp hkey
  have hsplit : List.range env.chunks.length =
      List.range i ++ i :: List.range' (i + 1) (env.chunks.length - i - 1) := by
    have hn : env.chunks.length = i + (1 + (env.chunks.length - i - 1)) := by omega
    conv_lhs => rw [hn]
    exact range_split i _
  obtain ⟨e, st2, hrun⟩ := runChunks_error env env.chunks.length i hfail
    (List.range i) (List.range' (i + 1) (env.chunks.length - i - 1)) ⟨[], []⟩ []
    (fun j hj => hprev j (List.mem_range.mp hj))
  have htr : (transcribeAudioRun env).1 =
      Except.error (chunkErrMsg i env.chunks.length e) := by
    rw [transcribeAudioRun, hurl]
    simp only [Bool.false_eq_true, if_false, hex, if_true, hkk, hconn]
    rw [chunkPhase, hsplit, hrun]
  refine ⟨⟨e, htr⟩, ?_⟩
  intro analyze pdfResult outputPath
  rw [mainRun]
  simp only [htr]

/-- Witness environment for C3: one chunk, extraction succeeds, the
transcription API call fails. -/
def failEnv : TAEnv :=
  ⟨false, DownloadResult.errClean "unused", true, some "sk-test", Except.ok (),
    [(0, 601/2)], fun _ => ExtractResult.ok "chunk0.mp3",
    fun _ => Except.error "boom"⟩

/-- Witness for C3: on `failEnv` the run aborts with the chunk-1 error and
`main` persists nothing. -/
theorem chunk_failure_aborts_job_witness :
    (∃ e, (transcribeAudioRun failEnv).1 =
      Except.error (chunkErrMsg 0 failEnv.chunks.length e)) ∧
    mainRun ⟨failEnv, Except.ok "analysis", none⟩ "out.txt" = (1, []) := by
  have h := chunk_failure_aborts_job failEnv 0 rfl rfl rfl rfl
    (by simp [failEnv])
    (fun j hj => absurd hj (Nat.not_lt_zero j))
    (Or.inr (Or.inr ⟨⟨"chunk0.mp3", rfl⟩, ⟨"boom", rfl⟩⟩))
  exact ⟨h.1, h.2 (Except.ok "analysis") none "out.txt"⟩

/-- Claim C4: when all chunks transcribe successfully with texts
`t 0 .. t (n-1)` collected in chunk order, `transcribe_audio` returns exactly
those texts joined with the two-newline blank-line separator, preserving the
planner's chunk order. -/
theorem transcripts_joined_in_order (env : TAEnv) (t : Nat → String)
    (hurl : env.isUrl = false)
    (hex : env.inputExists = true)
    (hkey : env.apiKey.isSome = true)
    (hconn : env.apiConnect = Except.ok ())
    (hok : ∀ i, i < env.chunks.length →
      (∃ p, env.extract i = ExtractResult.ok p) ∧
      env.transcribeChunk i = Except.ok (t i)) :
    (transcribeAudioRun env).1 =
      Except.ok (String.intercalate "\n\n"
        ((List.range env.chunks.length).map t)) := by
  obtain ⟨key, hkk⟩ := Option.isSome_iff_exists.mp hkey
  obtain ⟨st2, hrun⟩ := runChunks_ok env env.chunks.length t
    (List.range env.chunks.length) ⟨[], []⟩ []
    (fun j hj => hok j (List.mem_range.mp hj))
  rw [transcribeAudioRun, hurl]
  simp only [Bool.false_eq_true, if_false, hex, if_true, hkk, hconn]
  rw [chunkPhase, hrun]
  simp

/-- Witness environment for C4 and C7: two chunks, both succeed. -/
def okEnv : TAEnv :=
  ⟨false, DownloadResult.errClean "unused", true, some "sk-test", Except.ok (),
    [(0, 600), (590, 1221/2)], fun _ => ExtractResult.ok "chunk.mp3",
    fun i => Except.ok (if i = 0 then "hello" else "world")⟩

/-- Witness for C4: on `okEnv` the transcript is the two chunk texts joined
with a blank line. -/
theorem transcripts_joined_in_order_witness :
    (transcribeAudioRun okEnv).1 = Except.ok "hello\n\nworld" := by
  have h := transcripts_joined_in_order okEnv
    (fun i => if i = 0 then "hello" else "world") rfl rfl rfl rfl
    (fun i _ => ⟨⟨"chunk.mp3", rfl⟩, rfl⟩)
  rw [h]
  rfl

/-- Counterexample environment for C7: the input is a URL, the download
succeeds creating a temp file, and then `load_api_key` finds no key —
`transcribe_audio` raises before reaching its `try`/`finally`, leaving the
downloaded temp file on disk. -/
def leakEnv : TAEnv :=
  ⟨true, DownloadResult.ok "dl.tmp", true, none, Except.ok (), [],
    fun _ => ExtractResult.errClean "unused", fun _ => Except.error "unused"⟩

/-- Counterexample environment for C7: setup passes, and the first chunk's
extraction fails through the `"Audio extraction produced empty file"` check,
whose mkstemp file is on disk but was never recorded in `temp_paths`. -/
def extractLeakEnv : TAEnv :=
  ⟨false, DownloadResult.errClean "unused", true, some "sk-test",
    Except.ok (), [(0, 601/2)],
    fun _ => ExtractResult.errLeak "chunk0.tmp"
      "Audio extraction produced empty file",
    fun _ => Except.error "unused"⟩

/-- Counterexample environment for C7: the input is a URL and `download_file`
fails mid-write after creating its temp file, which it does not delete. -/
def downloadLeakEnv : TAEnv :=
  ⟨true, DownloadResult.errLeak "partial.tmp" "connection reset", true, none,
    Except.ok (), [], fun _ => ExtractResult.errClean "unused",
    fun _ => Except.error "unused"⟩

/-- Counterexample to claim C7 as stated, on three runs: on `leakEnv` the
missing-API-key exit after a successful download leaves `dl.tmp` on disk; on
`extractLeakEnv` a chunk-failure exit past setup leaves the unrecorded
mkstemp file `chunk0.tmp` on disk even though the `finally` cleanup ran; and
on `downloadLeakEnv` a mid-write download failure leaves the partial file
`partial.tmp` on disk.  So not every exit path deletes every temp file. -/
theorem temp_cleanup_counterexample :
    ((transcribeAudioRun leakEnv).1 = Except.error
      "OpenAI API key not found. Please set OPENAI_API_KEY environment variable or create .env file" ∧
      (transcribeAudioRun leakEnv).2 = ["dl.tmp"]) ∧
    ((transcribeAudioRun extractLeakEnv).1 = Except.error
      (chunkErrMsg 0 1 "Audio extraction produced empty file") ∧
      (transcribeAudioRun extractLeakEnv).2 = ["chunk0.tmp"]) ∧
    ((transcribeAudioRun downloadLeakEnv).1 = Except.error
      "Failed to download file: connection reset" ∧
      (transcribeAudioRun downloadLeakEnv).2 = ["partial.tmp"]) :=
  ⟨⟨rfl, rfl⟩, ⟨rfl, rfl⟩, ⟨rfl, rfl⟩⟩

/-- Claim C7 (amended): the `finally` block of `transcribe_audio` deletes
only the temp files recorded in `temp_paths`, so every temporary file is
deleted by exit exactly when the failure paths that create a file without
recording it are avoided: when the setup steps pass (input-existence check,
API-key lookup, API connection test), `download_file` does not fail mid-write
after creating its temp file, and no `extract_audio_chunk` call raises the
`"Audio extraction produced empty file"` error, then on every exit path —
normal return or mid-run chunk failure — no temp file remains on disk.
Otherwise a file leaks: the downloaded file on a setup-step exit, the partial
temp file on a mid-write download failure, and the unrecorded mkstemp file on
an empty-output extraction failure (even past setup). -/
theorem temp_files_cleaned_without_leak_paths (env : TAEnv)
    (hex : env.inputExists = true)
    (hkey : env.apiKey.isSome = true)
    (hconn : env.apiConnect = Except.ok ())
    (hdl : ∀ p e, env.download ≠ DownloadResult.errLeak p e)
    (hnl : ∀ i, ∀ p e, env.extract i ≠ ExtractResult.errLeak p e) :
    (transcribeAudioRun env).2 = [] := by
  obtain ⟨key, hkk⟩ := Option.isSome_iff_exists.mp hkey
  rw [transcribeAudioRun]
  cases hurl : env.isUrl with
  | false =>
    simp only [Bool.false_eq_true, if_false, hex, if_true, hkk, hconn]
    exact chunkPhase_clean env ⟨[], []⟩ hnl (by intro f hf; exact hf)
  | true =>
    cases hdlc : env.download with
    | errClean e => simp
    | errLeak p e => exact absurd hdlc (hdl p e)
    | ok p =>
      simp only [if_true, hex, hkk, hconn]
      exact chunkPhase_clean env ⟨[p], [p]⟩ hnl (by intro f hf; exact hf)

/-- Witness for the amended C7: `okEnv` passes all setup steps and hits no
unrecorded-file failure path, and no temp file remains at exit. -/
theorem temp_files_cleaned_without_leak_paths_witness :
    (transcribeAudioRun okEnv).2 = [] :=
  temp_files_cleaned_without_leak_paths okEnv rfl rfl rfl
    (fun _ _ h => DownloadResult.noConfusion h)
    (fun _ _ _ h => ExtractResult.noConfusion h)

/-!
### Email delivery (`transcribe_financial.py` / `web/transcription_service.py`)
-/

/-- Python truthiness of an optional string setting: `None` and the empty
string are falsy. -/
def pyFalsy : Option String → Bool
  | none => true
  | some s => s.isEmpty

/-- Model of `send_email_summary` in `transcribe_financial.py` (lines 593-667): with
missing credentials it returns `False`; otherwise the SMTP conversation runs
inside `try`/`except Exception` and the function returns `True` on success
and `False` on any exception — it never raises.  `smtpSend` is the outcome of
the SMTP conversation. -/
def send_email_summary (senderEmail senderPassword : Option String)
    (smtpSend : Except String Unit) : Bool :=
  if pyFalsy senderEmail || pyFalsy senderPassword then false
  else
    match smtpSend with
    | Except.ok _ => true
    | Except.error _ => false

/-- The result dictionary of `TranscriptionService.send_email_report`. -/
structure EmailResult where
  success : Bool
  message : String

/-- Model of `TranscriptionService.send_email_report` in `web/transcription_service.py`
(lines 310-358): incomplete configuration yields
`{'success': False, 'message': 'Email configuration incomplete'}`; the whole
body runs inside `try`/`except Exception`, so an SMTP failure is returned as
`{'success': False, 'message': 'Email failed: ...'}` — the method never
raises. -/
def send_email_report (emailAddress emailPassword outputEmail : Option String)
    (smtpSend : Except String Unit) : EmailResult :=
  if pyFalsy emailAddress || pyFalsy emailPassword || pyFalsy outputEmail then
    ⟨false, "Email configuration incomplete"⟩
  else
    match smtpSend with
    | Except.ok _ => ⟨true, "Email sent successfully"⟩
    | Except.error e => ⟨false, "Email failed: " ++ e⟩

/-- Environment of `TranscriptionService.process_file` (lines 378-402):
outcomes of transcription and analysis, the `send_email` setting, and the
email configuration and SMTP outcome used by `send_email_report`. -/
structure PFEnv where
  transcribeRes : Except String String
  analyzeRes : Except String String
  sendEmail : Bool
  emailAddress : Option String
  emailPassword : Option String
  outputEmail : Option String
  smtpSend : Except String Unit

/-- The result dictionary of a successful `process_file` call. -/
structure PFResult where
  transcript : String
  analysis : String
  email_result : Option EmailResult

/-- Model of `TranscriptionService.process_file`: transcribe, analyze, then send the
email report when the `send_email` setting is on.  Exceptions from the first
two steps are re-raised wrapped as `"Processing failed: ..."`; an email
failure is only a returned value inside the `ok` result, so the job still
completes with its analysis. -/
def process_file (env : PFEnv) : Except String PFResult :=
  match env.transcribeRes with
  | Except.error e => Except.error ("Processing failed: " ++ e)
  | Except.ok transcript =>
    match env.analyzeRes with
    | Except.error e => Except.error ("Processing failed: " ++ e)
    | Except.ok analysis =>
      Except.ok ⟨transcript, analysis,
        if env.sendEmail then
          some (send_email_report env.emailAddress env.emailPassword
            env.outputEmail env.smtpSend)
        else none⟩

/-- Claim C6: when transcription and analysis succeed but the email send
fails, the email operations report the failure as a return value —
`send_email_summary` returns `False`, `send_email_report` returns a
dictionary with `success = False` — and never raise, so `process_file` still
completes (returns `ok`) with the non-null analysis result. -/
theorem email_failure_nonfatal (env : PFEnv) (transcript analysis e : String)
    (htr : env.transcribeRes = Except.ok transcript)
    (han : env.analyzeRes = Except.ok analysis)
    (hsend : env.sendEmail = true)
    (hsmtp : env.smtpSend = Except.error e)
    (sender password : Option String) :
    send_email_summary sender password (Except.error e) = false ∧
    (send_email_report env.emailAddress env.emailPassword env.outputEmail
      env.smtpSend).success = false ∧
    process_file env = Except.ok ⟨transcript, analysis,
      some (send_email_report env.emailAddress env.emailPassword
        env.outputEmail env.smtpSend)⟩ := by
  refine ⟨?_, ?_, ?_⟩
  · rw [send_email_summary]
    split
    · rfl
    · rfl
  · rw [hsmtp, send_email_report]
    split
    · rfl
    · rfl
  · rw [process_file, htr, han, hsend]
    simp

/-- Witness environment for C6: both steps succeed, email is configured and
enabled, the SMTP conversation fails. -/
def emailFailEnv : PFEnv :=
  ⟨Except.ok "transcript text", Except.ok "analysis text", true,
    some "sender.example", some "pw", some "out.example",
    Except.error "smtp down"⟩

/-- Witness for C6 on `emailFailEnv`. -/
theorem email_failure_nonfatal_witness :
    send_email_summary (some "sender.example") (some "pw")
      (Except.error "smtp down") = false ∧
    process_file emailFailEnv = Except.ok ⟨"transcript text", "analysis text",
      some ⟨false, "Email failed: smtp down"⟩⟩ := by
  have h := email_failure_nonfatal emailFailEnv "transcript text"
    "analysis text" "smtp down" rfl rfl rfl rfl
    (some "sender.example") (some "pw")
  exact ⟨h.1, by rw [h.2.2]; rfl⟩

/-!
### API key loading (`transcribe_summarize/utils.py`)
-/

/-- Model of `is_valid_api_key` in `transcribe_summarize/utils.py` (lines 5-10):
`None` and the empty string are invalid (`if not key ... return False`);
otherwise the key must start with `"sk-"` and have length at least 40
(Python `len` counts characters, i.e. the length of the character list). -/
def is_valid_api_key : Option String → Bool
  | none => false
  | some k =>
    if k.data.isEmpty then false
    else "sk-".data.isPrefixOf k.data && decide (40 ≤ k.data.length)

/-- Python `str.strip(chars)`: remove the given characters from both ends. -/
def pyStrip (cs : List Char) (s : String) : String :=
  String.mk (((s.data.dropWhile cs.contains).reverse.dropWhile cs.contains).reverse)

/-- The whitespace characters removed by Python `str.strip()` with no
argument (space, tab, newline, carriage return, vertical tab, form feed). -/
def pyWhitespace : List Char :=
  [' ', Char.ofNat 9, Char.ofNat 10, Char.ofNat 13, Char.ofNat 11, Char.ofNat 12]

/-- The characters removed by the `.strip("'\x22")` applied to a `.env`
value: the apostrophe (code 39) and the double quote (code 34). -/
def envQuoteChars : List Char := [Char.ofNat 39, Char.ofNat 34]

/-- The value of a `.env` assignment line as processed by `load_api_key`:
`line.split("=", 1)[1].strip().strip("'\x22")` — for a line starting with the
15-character prefix `"OPENAI_API_KEY="` the part after the first `=` is the
rest of the line. -/
def envLineValue (l : String) : String :=
  pyStrip envQuoteChars (pyStrip pyWhitespace (l.drop 15))

/-- The `.env` scan of `load_api_key` (utils.py lines 25-34): for each line
starting with `"OPENAI_API_KEY="`, take the processed value and return the
first one that passes validation; lines whose value fails validation are
skipped. -/
def scanEnvLines : List String → Option String
  | [] => none
  | l :: ls =>
    if l.startsWith "OPENAI_API_KEY=" then
      if is_valid_api_key (some (envLineValue l)) then some (envLineValue l)
      else scanEnvLines ls
    else scanEnvLines ls

/-- The four sources read by `load_api_key` (utils.py lines 12-58), in
priority order: the `OPENAI_API_KEY` environment variable, the lines of a
readable `.env` file, the content of a readable `~/.openai/api_key`, and the
content of a readable `./api_key` (`none` = absent or unreadable, matching
the `try`/`except: pass` around each file read). -/
structure KeyEnv where
  envVar : Option String
  dotenvLines : Option (List String)
  homeKeyFile : Option String
  localKeyFile : Option String

/-- Model of `load_api_key` in `transcribe_summarize/utils.py` (lines 12-58): try the
environment variable, then `.env`, then `~/.openai/api_key` (content
stripped of whitespace), then `./api_key`; every candidate is checked with
`is_valid_api_key` before being returned, and `None` is returned when no
source yields a valid key. -/
def load_api_key (env : KeyEnv) : Option String :=
  if is_valid_api_key env.envVar then env.envVar
  else
    match (match env.dotenvLines with
           | some lines => scanEnvLines lines
           | none => none) with
    | some key => some key
    | none =>
      match (match env.homeKeyFile with
             | some content =>
               if is_valid_api_key (some (pyStrip pyWhitespace content)) then
                 some (pyStrip pyWhitespace content)
               else none
             | none => none) with
      | some key => some key
      | none =>
        match env.localKeyFile with
        | some content =>
          if is_valid_api_key (some (pyStrip pyWhitespace content)) then
            some (pyStrip pyWhitespace content)
          else none
        | none => none

theorem is_valid_unpack (k : String) (h : is_valid_api_key (some k) = true) :
    "sk-".data.isPrefixOf k.data = true ∧ 40 ≤ k.data.length := by
  rw [is_valid_api_key] at h
  split at h
  · exact absurd h (by simp)
  · simp only [Bool.and_eq_true] at h
    exact ⟨h.1, of_decide_eq_true h.2⟩

theorem scanEnvLines_valid :
    ∀ (ls : List String) (k : String),
      scanEnvLines ls = some k → is_valid_api_key (some k) = true := by
  intro ls
  induction ls with
  | nil => intro k h; simp [scanEnvLines] at h
  | cons l ls ih =>
    intro k h
    rw [scanEnvLines] at h
    split at h
    · split at h
      · rw [Option.some.injEq] at h
        subst h
        assumption
      · exact ih k h
    · exact ih k h

theorem strippedFile_valid (file : Option String) (k : String)
    (h : (match file with
          | some content =>
            if is_valid_api_key (some (pyStrip pyWhitespace content)) then
              some (pyStrip pyWhitespace content)
            else none
          | none => none) = some k) :
    is_valid_api_key (some k) = true := by
  split at h
  · split at h
    · rw [Option.some.injEq] at h
      subst h
      assumption
    · exact absurd h (by simp)
  · exact absurd h (by simp)

/-- Claim C10: `load_api_key` returns either `None` or a string satisfying
`is_valid_api_key` — it starts with `"sk-"` and has length at least 40; no
key read from any of the four sources is returned without passing this
validation. -/
theorem load_api_key_validated (env : KeyEnv) (k : String)
    (h : load_api_key env = some k) :
    is_valid_api_key (some k) = true ∧
    "sk-".data.isPrefixOf k.data = true ∧ 40 ≤ k.data.length := by
  have hvalid : is_valid_api_key (some k) = true := by
    rw [load_api_key] at h
    split at h
    case isTrue hv => rw [h] at hv; exact hv
    case isFalse =>
      split at h
      case h_1 key heq =>
        injection h with h
        subst h
        cases henv : env.dotenvLines with
        | none => rw [henv] at heq; exact absurd heq (by simp)
        | some lines =>
          rw [henv] at heq
          exact scanEnvLines_valid lines key heq
      case h_2 =>
        split at h
        case h_1 key heq =>
          injection h with h
          subst h
          exact strippedFile_valid env.homeKeyFile key heq
        case h_2 =>
          exact strippedFile_valid env.localKeyFile k h
  exact ⟨hvalid, is_valid_unpack k hvalid⟩

/-- A syntactically valid key: `"sk-"` followed by 37 characters (40 in
total). -/
def validKeyString : String := "sk-aaaaaaaaaaaaaaaaaaaaaaaaaaaaaaaaaaaaa"

/-- Witness for C10: with the environment variable set to `validKeyString`,
`load_api_key` returns it and it passes validation. -/
theorem load_api_key_validated_witness :
    load_api_key ⟨some validKeyString, none, none, none⟩ = some validKeyString ∧
    (is_valid_api_key (some validKeyString) = true ∧
      "sk-".data.isPrefixOf validKeyString.data = true ∧
      40 ≤ validKeyString.data.length) :=
  ⟨by decide, load_api_key_validated ⟨some validKeyString, none, none, none⟩
    validKeyString (by decide)⟩
